import Mathlib

/-!
Verification of the email payload normalizer of the gmail-mcp repository
(`main.py`): the base64url body decoder (`decode_base64`), the MIME tree
walker (`extract_email_body` / `process_part`), the header extractor
(`extract_headers`), the message formatter (`format_message`) and the
thread formatting step of `gmail_get_thread`.

The Python code is embedded shallowly:

* Python `str` values are Lean `String`s; bytes are `Nat`s below 256.
* A Python `dict` built by sequential assignment is an association list
  (`dictSet` reproduces assignment: overwrite in place, else append).
* A JSON field that may be absent is an `Option`; `x.get(k, d)` is
  `(x.f).getD d`.
* A raised exception (`binascii.Error` from `base64.urlsafe_b64decode`,
  `ValueError` from its internal ASCII check) is `none`; code that lets
  the exception propagate is composed with `Option` bind.
* `base64.urlsafe_b64decode` is modelled byte-exactly after CPython's
  non-strict `binascii.a2b_base64` state machine (invalid characters are
  skipped, padding terminates a quad, a trailing partial quad raises),
  preceded by the ASCII check of `_bytes_from_decode_data`, with the
  urlsafe translation `- → +`, `_ → /` folded into the character table.
* `bytes.decode("utf-8", errors="replace")` is modelled after CPython's
  UTF-8 decoder: every maximal subpart of an ill-formed sequence becomes
  one U+FFFD replacement character.
-/

namespace GmailMCP

/-- Replacement character U+FFFD produced by `errors="replace"`. -/
def repl : Char := Char.ofNat 0xFFFD

/-- Model of Python `str.lower` on a single character. Header names and
the allow-list are ASCII, where Python's full Unicode lowercasing agrees
with ASCII lowercasing on every comparison this code performs. -/
def lowerChar (c : Char) : Char :=
  if 'A' ≤ c ∧ c ≤ 'Z' then Char.ofNat (c.toNat + 32) else c

/-- Model of Python `str.lower`. -/
def lowerStr (s : String) : String :=
  ⟨s.data.map lowerChar⟩

/-- Value of a character in the base64 alphabet after the urlsafe
translation (`-` → `+`, `_` → `/`), `none` for characters outside the
alphabet (skipped by the non-strict CPython decoder). -/
def b64Val (c : Char) : Option Nat :=
  if 'A' ≤ c ∧ c ≤ 'Z' then some (c.toNat - 65)
  else if 'a' ≤ c ∧ c ≤ 'z' then some (c.toNat - 97 + 26)
  else if '0' ≤ c ∧ c ≤ '9' then some (c.toNat - 48 + 52)
  else if c = '+' ∨ c = '-' then some 62
  else if c = '/' ∨ c = '_' then some 63
  else none

/-- CPython `binascii.a2b_base64` (non-strict mode) state machine.
`quadPos` is the position inside the current 4-character quad,
`leftchar` the pending bits, `pads` the count of padding characters seen
since the last data character, `acc` the output bytes in reverse.
A `=` at `quadPos ≥ 2` that completes the quad ends decoding
successfully; a leftover partial quad at the end of input raises. -/
def a2bBase64 : List Char → Nat → Nat → Nat → List Nat → Option (List Nat)
  | [], quadPos, _, _, acc =>
      if quadPos = 0 then some acc.reverse else none
  | c :: cs, quadPos, leftchar, pads, acc =>
      if c = '=' then
        if 2 ≤ quadPos then
          if 4 ≤ quadPos + (pads + 1) then some acc.reverse
          else a2bBase64 cs quadPos leftchar (pads + 1) acc
        else a2bBase64 cs quadPos leftchar pads acc
      else
        match b64Val c with
        | none => a2bBase64 cs quadPos leftchar pads acc
        | some v =>
          match quadPos with
          | 0 => a2bBase64 cs 1 v 0 acc
          | 1 => a2bBase64 cs 2 (v % 16) 0 ((leftchar * 4 + v / 16) :: acc)
          | 2 => a2bBase64 cs 3 (v % 4) 0 ((leftchar * 16 + v / 4) :: acc)
          | _ => a2bBase64 cs 0 0 0 ((leftchar * 64 + v) :: acc)

/-- Model of `base64.urlsafe_b64decode` on a string: the internal
`_bytes_from_decode_data` call encodes the string as ASCII (raising
`ValueError` on a non-ASCII character), then the translated input is fed
to the non-strict `a2b_base64`. -/
def urlsafe_b64decode (cs : List Char) : Option (List Nat) :=
  if cs.all (fun c => c.toNat < 128) then a2bBase64 cs 0 0 0 [] else none

/-- Test for a UTF-8 continuation byte. -/
def isCont (b : Nat) : Bool := 0x80 ≤ b ∧ b ≤ 0xBF

/-- Valid second byte of a three-byte UTF-8 sequence led by `b1`
(excludes overlong encodings after `E0` and surrogates after `ED`). -/
def validSecondOf3 (b1 b2 : Nat) : Bool :=
  if b1 = 0xE0 then 0xA0 ≤ b2 ∧ b2 ≤ 0xBF
  else if b1 = 0xED then 0x80 ≤ b2 ∧ b2 ≤ 0x9F
  else isCont b2

/-- Valid second byte of a four-byte UTF-8 sequence led by `b1`
(excludes overlong encodings after `F0` and values above U+10FFFF after
`F4`). -/
def validSecondOf4 (b1 b2 : Nat) : Bool :=
  if b1 = 0xF0 then 0x90 ≤ b2 ∧ b2 ≤ 0xBF
  else if b1 = 0xF4 then 0x80 ≤ b2 ∧ b2 ≤ 0x8F
  else isCont b2

/-- Model of `bytes.decode("utf-8", errors="replace")`: CPython's UTF-8
decoder where each maximal subpart of an ill-formed sequence is replaced
by one U+FFFD and decoding resumes at the first unconsumed byte. The
fuel argument (one unit per error or decoded character, so the byte
count always suffices) only makes the recursion structural; it never
runs out when started at the byte count. -/
def utf8Go : Nat → List Nat → List Char
  | 0, _ => []
  | _ + 1, [] => []
  | fuel + 1, b1 :: t1 =>
    if b1 < 0x80 then Char.ofNat b1 :: utf8Go fuel t1
    else if b1 < 0xC2 then repl :: utf8Go fuel t1
    else if b1 < 0xE0 then
      match t1 with
      | [] => [repl]
      | b2 :: t2 =>
        if isCont b2 then
          Char.ofNat ((b1 - 0xC0) * 0x40 + (b2 - 0x80)) :: utf8Go fuel t2
        else repl :: utf8Go fuel (b2 :: t2)
    else if b1 < 0xF0 then
      match t1 with
      | [] => [repl]
      | b2 :: t2 =>
        if validSecondOf3 b1 b2 then
          match t2 with
          | [] => [repl]
          | b3 :: t3 =>
            if isCont b3 then
              Char.ofNat ((b1 - 0xE0) * 0x1000 + (b2 - 0x80) * 0x40 + (b3 - 0x80))
                :: utf8Go fuel t3
            else repl :: utf8Go fuel (b3 :: t3)
        else repl :: utf8Go fuel (b2 :: t2)
    else if b1 < 0xF5 then
      match t1 with
      | [] => [repl]
      | b2 :: t2 =>
        if validSecondOf4 b1 b2 then
          match t2 with
          | [] => [repl]
          | b3 :: t3 =>
            if isCont b3 then
              match t3 with
              | [] => [repl]
              | b4 :: t4 =>
                if isCont b4 then
                  Char.ofNat ((b1 - 0xF0) * 0x40000 + (b2 - 0x80) * 0x1000
                      + (b3 - 0x80) * 0x40 + (b4 - 0x80))
                    :: utf8Go fuel t4
                else repl :: utf8Go fuel (b4 :: t4)
            else repl :: utf8Go fuel (b3 :: t3)
        else repl :: utf8Go fuel (b2 :: t2)
    else repl :: utf8Go fuel t1

/-- Decode a byte list as UTF-8 with replacement characters. -/
def utf8DecodeReplace (bs : List Nat) : List Char := utf8Go bs.length bs

/-- Embedding of `decode_base64` (main.py:46-52): restore padding when
`len(data) mod 4 ≠ 0`, decode with the urlsafe alphabet, interpret the
bytes as UTF-8 with replacement characters. `none` is the propagated
`binascii.Error` of an invalid base64 string. -/
def decode_base64 (data : String) : Option String :=
  let padding := 4 - data.length % 4
  let padded := if padding ≠ 4 then data.data ++ List.replicate padding '=' else data.data
  (urlsafe_b64decode padded).map (fun bs => String.mk (utf8DecodeReplace bs))

/-- One entry of a payload's `headers` list: a JSON object whose `name`
and `value` keys may each be absent (read with `h.get("name", "")` and
`h.get("value", "")`). -/
structure Header where
  name : Option String
  value : Option String
deriving Repr

/-- A raw MIME part as consumed by `extract_email_body`: the declared
`mimeType` (absent key modelled as `none`, read as `part.get("mimeType",
"")`), the `headers` list of the part object (read only on the root, as
`payload.get("headers", [])`), the base64url blob at
`part.get("body", {}).get("data", "")` (absence of either level is
`none`), and the `part.get("parts", [])` children. An absent `headers`
or `parts` key is modelled as the empty list, the exact value the
code's `.get` default substitutes for it. -/
inductive Part where
  | mk (mimeType : Option String) (headers : List Header)
       (bodyData : Option String) (parts : List Part)
deriving Repr

/-- Declared MIME type field of a part. -/
def Part.mimeType : Part → Option String
  | .mk m _ _ _ => m

/-- Header list field of a part. -/
def Part.headers : Part → List Header
  | .mk _ h _ _ => h

/-- Body data blob field of a part. -/
def Part.bodyData : Part → Option String
  | .mk _ _ b _ => b

/-- Child part list field of a part. -/
def Part.parts : Part → List Part
  | .mk _ _ _ p => p

/-- The empty JSON object `{}` that `msg.get("payload", {})` substitutes
for an absent payload: every key lookup on it defaults. -/
def emptyPart : Part := .mk none [] none []

/-- The mutable `result` dict of `extract_email_body`. -/
structure BodyResult where
  plain : String
  html : String
deriving Repr, DecidableEq

/-- The body-handling prefix of `process_part` (main.py:60-69): read the
declared type and data with defaults, and when data is present decode it
(propagating a decode exception) and assign to `plain` or `html` when
the type matches exactly. -/
def processOwn (st : BodyResult) (p : Part) : Option BodyResult :=
  let mime_type := p.mimeType.getD ""
  let data := p.bodyData.getD ""
  if data = "" then some st
  else
    (decode_base64 data).map (fun decoded =>
      if mime_type = "text/plain" then { st with plain := decoded }
      else if mime_type = "text/html" then { st with html := decoded }
      else st)

mutual
/-- Embedding of the recursive `process_part` closure (main.py:59-73):
handle the node's own body, then recurse into every child of the
`parts` collection in order. The state is the `result` dict. -/
def process_part (st : BodyResult) : Part → Option BodyResult
  | p@(.mk _ _ _ parts) =>
    match processOwn st p with
    | none => none
    | some st1 => processList st1 parts
/-- The `for subpart in part.get("parts", [])` loop of `process_part`,
threading the shared `result` state left to right. -/
def processList (st : BodyResult) : List Part → Option BodyResult
  | [] => some st
  | q :: qs =>
    match process_part st q with
    | none => none
    | some st' => processList st' qs
end

/-- Embedding of `extract_email_body` (main.py:55-76): run the walker on
the root payload starting from `{"plain": "", "html": ""}`. -/
def extract_email_body (payload : Part) : Option BodyResult :=
  process_part { plain := "", html := "" } payload

/-- Python dict assignment `d[k] = v` on an association list: overwrite
the existing binding in place, otherwise append a new one. -/
def dictSet {α : Type} : List (String × α) → String → α → List (String × α)
  | [], k, v => [(k, v)]
  | (k', v') :: rest, k, v =>
    if k' = k then (k, v) :: rest else (k', v') :: dictSet rest k v

/-- Python dict lookup `d[k]` / `k in d` on an association list. -/
def dictGet {α : Type} : List (String × α) → String → Option α
  | [], _ => none
  | (k', v) :: rest, k => if k' = k then some v else dictGet rest k

/-- Python `d.get(k, default)`. -/
def dictGetD {α : Type} (d : List (String × α)) (k : String) (dflt : α) : α :=
  (dictGet d k).getD dflt

/-- The allow-list literal of `extract_headers` (main.py:84). -/
def allowedHeaders : List String := ["from", "to", "subject", "date", "cc", "bcc"]

/-- Embedding of `extract_headers` (main.py:79-86): iterate over the
header list, lower-case each name, and assign the value into the dict
when the name is on the allow-list. -/
def extract_headers (headers : List Header) : List (String × String) :=
  headers.foldl
    (fun header_dict h =>
      let name := lowerStr (h.name.getD "")
      if name ∈ allowedHeaders then dictSet header_dict name (h.value.getD "")
      else header_dict)
    []

/-- JSON values appearing in the formatted output dict: `None`, a
string, or a list of label strings. -/
inductive JVal where
  | null
  | jstr (s : String)
  | jlist (l : List String)
deriving Repr, DecidableEq

/-- Python `msg.get(k)` with no default: `None` when the key is absent,
the string value otherwise. -/
def optStr : Option String → JVal
  | none => .null
  | some s => .jstr s

/-- A raw Gmail message as consumed by `format_message`: every key the
code reads, each `Option` because the incoming JSON may omit it. -/
structure RawMessage where
  id : Option String
  threadId : Option String
  labelIds : Option (List String)
  snippet : Option String
  payload : Option Part

/-- The output dict literal of `format_message` (main.py:95-107), given
the already-computed header mapping and body result. -/
def mkOutput (msg : RawMessage) (headers : List (String × String))
    (body : BodyResult) : List (String × JVal) :=
  [("id", optStr msg.id),
   ("threadId", optStr msg.threadId),
   ("labelIds", .jlist (msg.labelIds.getD [])),
   ("snippet", .jstr (msg.snippet.getD "")),
   ("from", .jstr (dictGetD headers "from" "")),
   ("to", .jstr (dictGetD headers "to" "")),
   ("cc", .jstr (dictGetD headers "cc" "")),
   ("subject", .jstr (dictGetD headers "subject" "")),
   ("date", .jstr (dictGetD headers "date" "")),
   ("body_plain", .jstr body.plain),
   ("body_html", .jstr body.html)]

/-- Embedding of `format_message` (main.py:89-107): default the payload
to `{}`, extract headers and body (a body decode exception propagates),
and build the output dict. -/
def format_message (msg : RawMessage) : Option (List (String × JVal)) :=
  let payload := msg.payload.getD emptyPart
  let headers := extract_headers payload.headers
  match extract_email_body payload with
  | none => none
  | some body => some (mkOutput msg headers body)

/-- A raw thread as consumed by `gmail_get_thread`: the `messages` key
(absent or a list of raw messages) plus all other top-level fields,
which the code never touches, abstracted as `rest`. -/
structure RawThread (α : Type) where
  rest : α
  messages : Option (List RawMessage)

/-- The thread after the formatting step: same untouched fields, with
the `messages` value (when the key was present) replaced by formatted
message dicts. -/
structure FormattedThread (α : Type) where
  rest : α
  messages : Option (List (List (String × JVal)))

/-- The list comprehension `[format_message(msg) for msg in
thread["messages"]]`: left to right, a raised exception propagates. -/
def formatAll : List RawMessage → Option (List (List (String × JVal)))
  | [] => some []
  | m :: ms =>
    match format_message m with
    | none => none
    | some out => (formatAll ms).map (fun outs => out :: outs)

/-- Embedding of the response-formatting step of `gmail_get_thread`
(main.py:280-286): when the `messages` key is present, replace its value
by the formatted list; every other field passes through unchanged. -/
def gmail_get_thread_format {α : Type} (thread : RawThread α) :
    Option (FormattedThread α) :=
  match thread.messages with
  | none => some ⟨thread.rest, none⟩
  | some msgs => (formatAll msgs).map (fun outs => ⟨thread.rest, some outs⟩)

mutual
/-- Depth-first pre-order visit list of a part tree: the node itself,
then the subtrees of its children in order. -/
def visitList : Part → List Part
  | p@(.mk _ _ _ parts) => p :: visitListAll parts
/-- Concatenated visit lists of a forest of parts. -/
def visitListAll : List Part → List Part
  | [] => []
  | q :: qs => visitList q ++ visitListAll qs
end

mutual
/-- Number of nodes of a part tree. -/
def sizeP : Part → Nat
  | .mk _ _ _ parts => 1 + sizePList parts
/-- Number of nodes of a forest of parts. -/
def sizePList : List Part → Nat
  | [] => 0
  | q :: qs => sizeP q + sizePList qs
end

/-- One `processOwn` step per node of a flat list: the walker
re-expressed as a linear pass over its visit list. -/
def foldOwn (st : BodyResult) : List Part → Option BodyResult
  | [] => some st
  | q :: qs =>
    match processOwn st q with
    | none => none
    | some st' => foldOwn st' qs

/-! Helper lemmas. -/

theorem dictGet_dictSet {α : Type} (d : List (String × α)) (k k' : String) (v : α) :
    dictGet (dictSet d k v) k' = if k' = k then some v else dictGet d k' := by
  induction d with
  | nil =>
    rcases eq_or_ne k' k with rfl | h
    · simp [dictSet, dictGet]
    · simp [dictSet, dictGet, h, Ne.symm h]
  | cons hd tl ih =>
    obtain ⟨k0, v0⟩ := hd
    rcases eq_or_ne k0 k with rfl | h0
    · rcases eq_or_ne k' k0 with rfl | h1
      · simp [dictSet, dictGet]
      · simp [dictSet, dictGet, h1, Ne.symm h1]
    · rcases eq_or_ne k' k with rfl | h1
      · have h0' : k0 ≠ k' := h0
        simp [dictSet, dictGet, h0, h0', ih]
      · rcases eq_or_ne k0 k' with rfl | h2
        · simp [dictSet, dictGet, h0, h1, ih]
        · simp [dictSet, dictGet, h0, h1, h2, ih]

theorem dictGet_extract_headers (hs : List Header) (k : String) :
    dictGet (extract_headers hs) k =
      if k ∈ allowedHeaders then
        (hs.reverse.find? (fun h => lowerStr (h.name.getD "") == k)).map
          (fun h => h.value.getD "")
      else none := by
  induction hs using List.reverseRecOn with
  | nil => by_cases h : k ∈ allowedHeaders <;> simp [extract_headers, dictGet, h]
  | append_singleton hs h ih =>
    have hstep : extract_headers (hs ++ [h]) =
        (let name := lowerStr (h.name.getD "")
         if name ∈ allowedHeaders then dictSet (extract_headers hs) name (h.value.getD "")
         else extract_headers hs) := by
      simp [extract_headers, List.foldl_append]
    by_cases hmem : lowerStr (h.name.getD "") ∈ allowedHeaders
    · rw [hstep]
      simp only [hmem, if_true]
      rw [dictGet_dictSet]
      by_cases hk : k = lowerStr (h.name.getD "")
      · subst hk
        simp [hmem, List.find?]
      · by_cases hka : k ∈ allowedHeaders
        · simp only [ih, hka, if_true]
          have : (lowerStr (h.name.getD "") == k) = false := by
            simp [Ne.symm hk]
          simp [hk, this, List.find?]
        · simp [ih, hka, hk]
    · rw [hstep]
      simp only [hmem, if_false]
      rw [ih]
      by_cases hka : k ∈ allowedHeaders
      · have hne : lowerStr (h.name.getD "") ≠ k := by
          intro hEq; exact hmem (hEq ▸ hka)
        have : (lowerStr (h.name.getD "") == k) = false := by simp [hne]
        simp [hka, this, List.find?]
      · simp [hka]

theorem foldOwn_append (l1 l2 : List Part) (st : BodyResult) :
    foldOwn st (l1 ++ l2) =
      match foldOwn st l1 with
      | none => none
      | some st' => foldOwn st' l2 := by
  induction l1 generalizing st with
  | nil => simp [foldOwn]
  | cons q qs ih =>
    simp only [List.cons_append, foldOwn]
    cases processOwn st q with
    | none => rfl
    | some st' => exact ih st'

mutual
theorem process_part_eq_foldOwn (p : Part) :
    ∀ st : BodyResult, process_part st p = foldOwn st (visitList p) := by
  intro st
  cases p with
  | mk m hs b ps =>
    rw [process_part, visitList, foldOwn]
    cases processOwn st (Part.mk m hs b ps) with
    | none => rfl
    | some st1 => exact processList_eq_foldOwn ps st1
theorem processList_eq_foldOwn (ps : List Part) :
    ∀ st : BodyResult, processList st ps = foldOwn st (visitListAll ps) := by
  intro st
  cases ps with
  | nil => rw [processList, visitListAll, foldOwn]
  | cons q qs =>
    rw [processList, visitListAll, foldOwn_append, process_part_eq_foldOwn q st]
    cases foldOwn st (visitList q) with
    | none => rfl
    | some st' => exact processList_eq_foldOwn qs st'
end

theorem process_part_plain_leaf (st : BodyResult) (B : Part) (d s : String)
    (hm : B.mimeType.getD "" = "text/plain") (hp : B.parts = [])
    (hd : B.bodyData.getD "" = d) (hne : d ≠ "") (hdec : decode_base64 d = some s) :
    process_part st B = some { st with plain := s } := by
  cases B with
  | mk m hs b ps =>
    simp only [Part.parts] at hp
    subst hp
    simp only [Part.mimeType] at hm
    simp only [Part.bodyData] at hd
    have hOwn : processOwn st (Part.mk m hs b []) = some { st with plain := s } := by
      simp [processOwn, Part.mimeType, Part.bodyData, hd, hne, hdec, hm]
    rw [process_part, hOwn]
    rfl

theorem process_part_html_leaf (st : BodyResult) (B : Part) (d s : String)
    (hm : B.mimeType.getD "" = "text/html") (hp : B.parts = [])
    (hd : B.bodyData.getD "" = d) (hne : d ≠ "") (hdec : decode_base64 d = some s) :
    process_part st B = some { st with html := s } := by
  cases B with
  | mk m hs b ps =>
    simp only [Part.parts] at hp
    subst hp
    simp only [Part.mimeType] at hm
    simp only [Part.bodyData] at hd
    have hOwn : processOwn st (Part.mk m hs b []) = some { st with html := s } := by
      simp [processOwn, Part.mimeType, Part.bodyData, hd, hne, hdec, hm]
    rw [process_part, hOwn]
    rfl

theorem walker_second_child (root A B : Part) (r : BodyResult)
    (hps : root.parts = [A, B])
    (hr : extract_email_body root = some r) :
    ∃ st2 : BodyResult, process_part st2 B = some r := by
  cases root with
  | mk m hs b ps =>
    simp only [Part.parts] at hps
    subst hps
    rw [extract_email_body, process_part] at hr
    split at hr
    · exact absurd hr (by simp)
    · rename_i st1 hOwn
      rw [processList] at hr
      split at hr
      · exact absurd hr (by simp)
      · rename_i st2 hA
        rw [processList] at hr
        split at hr
        · exact absurd hr (by simp)
        · rename_i st3 hB
          rw [processList] at hr
          obtain rfl := Option.some.inj hr
          exact ⟨st2, hB⟩

mutual
theorem visitList_length (p : Part) : (visitList p).length = sizeP p := by
  cases p with
  | mk m hs b ps =>
    rw [visitList, sizeP, List.length_cons, visitListAll_length ps]
    omega
theorem visitListAll_length (ps : List Part) :
    (visitListAll ps).length = sizePList ps := by
  cases ps with
  | nil => rw [visitListAll, sizePList]; rfl
  | cons q qs =>
    rw [visitListAll, sizePList, List.length_append, visitList_length q,
      visitListAll_length qs]
end

/-- Unfolding of `format_message` with its `let` bindings expanded. -/
theorem format_message_eq (msg : RawMessage) :
    format_message msg =
      match extract_email_body (msg.payload.getD emptyPart) with
      | none => none
      | some body =>
          some (mkOutput msg (extract_headers (msg.payload.getD emptyPart).headers) body) :=
  rfl

/-! Concrete example inputs used by witnesses and counterexamples. -/

/-- First `text/plain` child of the last-write-wins example. -/
def plainA : Part := .mk (some "text/plain") [] (some "QQ") []

/-- Second `text/plain` child; decodes to `"B"`. -/
def plainB : Part := .mk (some "text/plain") [] (some "Qg") []

/-- Root with two `text/plain` children in order. -/
def rootPlainEx : Part := .mk (some "multipart/alternative") [] none [plainA, plainB]

/-- First `text/html` child of the last-write-wins example. -/
def htmlA : Part := .mk (some "text/html") [] (some "QQ") []

/-- Second `text/html` child; decodes to `"H"`. -/
def htmlB : Part := .mk (some "text/html") [] (some "SA") []

/-- Root with two `text/html` children in order. -/
def rootHtmlEx : Part := .mk (some "multipart/alternative") [] none [htmlA, htmlB]

/-- Header list with a recurring name in two spellings and a name
outside the allow-list. -/
def hsEx : List Header :=
  [{ name := some "FROM", value := some "a@x" },
   { name := some "From", value := some "b@x" },
   { name := some "X-Spam", value := some "1" }]

/-!
C3. For every part tree in which two parts with declared type exactly
`text/plain` are visited in depth-first pre-order with A before B, the
walker's plain output equals B's decoded content; same for `text/html`.
-/

/-- C3: given a root whose children are `[A, B]`, both declared
`text/plain`, with B a leaf carrying a non-empty decodable blob, a
successful walk ends with `plain` equal to B's decoded content — the
later-visited part overwrites the earlier (last-write-wins); the same
holds for `text/html` and the `html` output. -/
theorem extract_email_body_last_write_wins :
    (∀ (root A B : Part) (r : BodyResult) (d s : String),
       root.parts = [A, B] →
       A.mimeType.getD "" = "text/plain" →
       B.mimeType.getD "" = "text/plain" →
       B.parts = [] →
       B.bodyData.getD "" = d → d ≠ "" →
       decode_base64 d = some s →
       extract_email_body root = some r →
       r.plain = s) ∧
    (∀ (root A B : Part) (r : BodyResult) (d s : String),
       root.parts = [A, B] →
       A.mimeType.getD "" = "text/html" →
       B.mimeType.getD "" = "text/html" →
       B.parts = [] →
       B.bodyData.getD "" = d → d ≠ "" →
       decode_base64 d = some s →
       extract_email_body root = some r →
       r.html = s) := by
  constructor
  · intro root A B r d s hps hmA hmB hpB hd hne hdec hr
    obtain ⟨st2, hB⟩ := walker_second_child root A B r hps hr
    rw [process_part_plain_leaf st2 B d s hmB hpB hd hne hdec] at hB
    obtain rfl := Option.some.inj hB
    rfl
  · intro root A B r d s hps hmA hmB hpB hd hne hdec hr
    obtain ⟨st2, hB⟩ := walker_second_child root A B r hps hr
    rw [process_part_html_leaf st2 B d s hmB hpB hd hne hdec] at hB
    obtain rfl := Option.some.inj hB
    rfl

/-- C3 witness: both halves applied to concrete two-child roots. -/
theorem extract_email_body_last_write_wins_witness :
    decode_base64 "Qg" = some "B" ∧
    extract_email_body rootPlainEx = some { plain := "B", html := "" } ∧
    (BodyResult.mk "B" "").plain = "B" ∧
    decode_base64 "SA" = some "H" ∧
    extract_email_body rootHtmlEx = some { plain := "", html := "H" } ∧
    (BodyResult.mk "" "H").html = "H" := by
  refine ⟨rfl, rfl, ?_, rfl, rfl, ?_⟩
  · exact extract_email_body_last_write_wins.1 rootPlainEx plainA plainB
      (BodyResult.mk "B" "") "Qg" "B" rfl rfl rfl rfl rfl (by decide) rfl rfl
  · exact extract_email_body_last_write_wins.2 rootHtmlEx htmlA htmlB
      (BodyResult.mk "" "H") "SA" "H" rfl rfl rfl rfl rfl (by decide) rfl rfl

/-!
C4. Padding restoration: `(4 - r) mod 4` padding characters are
appended before decoding; the empty string decodes to the empty string.
-/

/-- C4: for every string `s` with `len(s) mod 4 = r`, `decode_base64`
decodes exactly `s` extended by `(4 - r) mod 4` padding characters `=`
through urlsafe base64 followed by lossy UTF-8 interpretation; the
empty string decodes to the empty string. -/
theorem decode_base64_padding_law :
    (∀ s : String,
       decode_base64 s =
         (urlsafe_b64decode (s.data ++ List.replicate ((4 - s.length % 4) % 4) '=')).map
           (fun bs => String.mk (utf8DecodeReplace bs))) ∧
    decode_base64 "" = some "" := by
  constructor
  · intro s
    by_cases h : s.length % 4 = 0
    · have h4 : 4 - s.length % 4 = 4 := by omega
      simp [decode_base64, h, h4]
    · have hlt : s.length % 4 < 4 := Nat.mod_lt _ (by norm_num)
      have hne : ¬(4 - s.length % 4 = 4) := by omega
      have hmod : (4 - s.length % 4) % 4 = 4 - s.length % 4 := Nat.mod_eq_of_lt (by omega)
      simp [decode_base64, hne, hmod]
  · rfl

/-!
C5. Header extraction: allow-list keys only, case-insensitive name
matching, last occurrence wins, raw value passed through, absent names
are absent keys.
-/

/-- C5: for every header sequence, a key on the allow-list maps to the
raw value of the last occurrence of the case-insensitively matching
name (and is absent when no occurrence exists), while a key off the
allow-list is never present. -/
theorem extract_headers_allowlist_last_occurrence :
    ∀ (hs : List Header) (k : String),
      (k ∈ allowedHeaders →
        dictGet (extract_headers hs) k =
          (hs.reverse.find? (fun h => lowerStr (h.name.getD "") == k)).map
            (fun h => h.value.getD "")) ∧
      (k ∉ allowedHeaders → dictGet (extract_headers hs) k = none) := by
  intro hs k
  constructor
  · intro hk
    rw [dictGet_extract_headers, if_pos hk]
  · intro hk
    rw [dictGet_extract_headers, if_neg hk]

/-- C5 witness: on `hsEx`, `from` resolves to the value of its last
case-insensitive occurrence and `x-spam` is dropped. -/
theorem extract_headers_allowlist_last_occurrence_witness :
    dictGet (extract_headers hsEx) "from" =
      (hsEx.reverse.find? (fun h => lowerStr (h.name.getD "") == "from")).map
        (fun h => h.value.getD "") ∧
    dictGet (extract_headers hsEx) "x-spam" = none :=
  ⟨(extract_headers_allowlist_last_occurrence hsEx "from").1 (by decide),
   (extract_headers_allowlist_last_occurrence hsEx "x-spam").2 (by decide)⟩

/-!
C1. The spec's scenario input, and the claimed `has_attachments` output
field.
-/

/-- The spec scenario input: `{id:"1", threadId:"t1",
payload:{headers:[{name:"Subject",value:"Hi"}], mimeType:"text/plain",
body:{data:"SGVsbG8"}}}`. -/
def c1msg : RawMessage :=
  { id := some "1", threadId := some "t1", labelIds := none, snippet := none,
    payload := some (.mk (some "text/plain")
      [{ name := some "Subject", value := some "Hi" }] (some "SGVsbG8") []) }

/-- The full output dict `format_message` produces for `c1msg`. -/
def c1out : List (String × JVal) :=
  [("id", .jstr "1"), ("threadId", .jstr "t1"), ("labelIds", .jlist []),
   ("snippet", .jstr ""), ("from", .jstr ""), ("to", .jstr ""),
   ("cc", .jstr ""), ("subject", .jstr "Hi"), ("date", .jstr ""),
   ("body_plain", .jstr "Hello"), ("body_html", .jstr "")]

/-- C1 counterexample: on the spec's own scenario input the formatter
succeeds but its output has no `has_attachments` key at all, refuting
the claim that the output record includes `has_attachments:false`. -/
theorem format_message_no_attachment_field_counterexample :
    (format_message c1msg).map (fun out => dictGet out "has_attachments") = some none :=
  rfl

/-- C1 amended: `format_message` output never carries a
`has_attachments` field; on the scenario input the output is exactly
`c1out` — `id:"1"`, `threadId:"t1"`, `subject:"Hi"`, `from:""`,
`body_plain:"Hello"`, `body_html:""` — with no attachment flag. -/
theorem format_message_scenario_no_has_attachments :
    (∀ (msg : RawMessage) (out : List (String × JVal)),
       format_message msg = some out → dictGet out "has_attachments" = none) ∧
    format_message c1msg = some c1out := by
  constructor
  · intro msg out h
    rw [format_message_eq] at h
    split at h
    · exact absurd h (by simp)
    · rename_i body hB
      obtain rfl := Option.some.inj h
      rfl
  · rfl

/-- C1 witness: the general half applied to the scenario input. -/
theorem format_message_scenario_no_has_attachments_witness :
    dictGet c1out "has_attachments" = none :=
  format_message_scenario_no_has_attachments.1 c1msg c1out rfl

/-!
C2. Decode failure on a part: propagation versus graceful degradation.
-/

/-- A message whose only part carries the corrupt blob `"A"` (one data
character cannot be a multiple-of-four quad, so `urlsafe_b64decode`
raises `binascii.Error`). -/
def c2msg : RawMessage :=
  { id := some "2", threadId := none, labelIds := none, snippet := none,
    payload := some (.mk (some "text/plain") [] (some "A") []) }

/-- C2 counterexample: normalization of `c2msg` does not succeed — the
decode failure on its part aborts the whole message, refuting the claim
that a corrupt blob degrades to an empty string and traversal
continues. -/
theorem format_message_corrupt_blob_counterexample :
    format_message c2msg = none := rfl

/-- C2 amended: a base64 decode failure on the payload's body data
propagates as an exception out of the walker, so `format_message`
errors for the whole message instead of degrading that part to an empty
string. -/
theorem decode_failure_propagates (msg : RawMessage) (p : Part) (d : String)
    (hp : msg.payload = some p) (hd : p.bodyData.getD "" = d) (hne : d ≠ "")
    (hdec : decode_base64 d = none) : format_message msg = none := by
  cases p with
  | mk m hs b ps =>
    simp only [Part.bodyData] at hd
    have hOwn : processOwn { plain := "", html := "" } (Part.mk m hs b ps) = none := by
      simp [processOwn, Part.bodyData, hd, hne, hdec]
    have hE : extract_email_body (Part.mk m hs b ps) = none := by
      rw [extract_email_body, process_part, hOwn]
    rw [format_message_eq, hp]
    simp only [Option.getD_some]
    rw [hE]

/-- A message whose only part carries the corrupt blob `"ab!"` (after
padding, a quad of two data characters remains incomplete). -/
def c2msg2 : RawMessage :=
  { id := none, threadId := none, labelIds := none, snippet := none,
    payload := some (.mk none [] (some "ab!") []) }

/-- C2 witness: the amended theorem applied to `c2msg2`. -/
theorem decode_failure_propagates_witness :
    decode_base64 "ab!" = none ∧ format_message c2msg2 = none :=
  ⟨rfl, decode_failure_propagates c2msg2 (.mk none [] (some "ab!") []) "ab!" rfl rfl
    (by decide) rfl⟩

/-!
C6. Defaulting of missing optional fields in `format_message`.
-/

/-- A message missing the headers, labelIds, snippet and parts fields
whose payload body data is a corrupt blob. -/
def c6msg : RawMessage :=
  { id := none, threadId := none, labelIds := none, snippet := none,
    payload := some (.mk none [] (some "AAAAA") []) }

/-- C6 counterexample: a RawMessage missing the headers, labelIds,
snippet and parts fields on which the Message Formatter does NOT
succeed (its body blob fails to decode), refuting the unconditional
"succeeds without error". -/
theorem format_message_missing_fields_counterexample :
    format_message c6msg = none := rfl

/-- C6 amended: whenever body extraction succeeds (decode failure being
the only failure mode), `format_message` succeeds even with headers,
labelIds, snippet and parts absent; the from/to/cc/subject/date,
snippet and body fields are always strings — never null — defaulting to
the empty string when the source is absent, and labelIds defaults to
the empty list. -/
theorem format_message_defaults (msg : RawMessage) (body : BodyResult)
    (hdec : extract_email_body (msg.payload.getD emptyPart) = some body) :
    ∃ out, format_message msg = some out ∧
      dictGet out "body_plain" = some (.jstr body.plain) ∧
      dictGet out "body_html" = some (.jstr body.html) ∧
      (∃ s, dictGet out "from" = some (.jstr s)) ∧
      (∃ s, dictGet out "to" = some (.jstr s)) ∧
      (∃ s, dictGet out "cc" = some (.jstr s)) ∧
      (∃ s, dictGet out "subject" = some (.jstr s)) ∧
      (∃ s, dictGet out "date" = some (.jstr s)) ∧
      (∃ s, dictGet out "snippet" = some (.jstr s)) ∧
      ((msg.payload.getD emptyPart).headers = [] →
        dictGet out "from" = some (.jstr "") ∧
        dictGet out "to" = some (.jstr "") ∧
        dictGet out "cc" = some (.jstr "") ∧
        dictGet out "subject" = some (.jstr "") ∧
        dictGet out "date" = some (.jstr "")) ∧
      (msg.labelIds = none → dictGet out "labelIds" = some (.jlist [])) ∧
      (msg.snippet = none → dictGet out "snippet" = some (.jstr "")) := by
  refine ⟨mkOutput msg (extract_headers (msg.payload.getD emptyPart).headers) body,
    ?_, rfl, rfl, ⟨_, rfl⟩, ⟨_, rfl⟩, ⟨_, rfl⟩, ⟨_, rfl⟩, ⟨_, rfl⟩, ⟨_, rfl⟩, ?_, ?_, ?_⟩
  · rw [format_message_eq, hdec]
  · intro hh
    rw [hh]
    exact ⟨rfl, rfl, rfl, rfl, rfl⟩
  · intro hl
    simp [mkOutput, dictGet, hl]
  · intro hsn
    simp [mkOutput, dictGet, hsn]

/-- A message with every optional field absent. -/
def c6msgOk : RawMessage :=
  { id := none, threadId := none, labelIds := none, snippet := none, payload := none }

/-- C6 witness: the amended theorem applied to the all-absent message,
whose body extraction trivially succeeds. -/
theorem format_message_defaults_witness :
    ∃ out, format_message c6msgOk = some out ∧
      dictGet out "body_plain" = some (.jstr "") ∧
      dictGet out "body_html" = some (.jstr "") ∧
      (∃ s, dictGet out "from" = some (.jstr s)) ∧
      (∃ s, dictGet out "to" = some (.jstr s)) ∧
      (∃ s, dictGet out "cc" = some (.jstr s)) ∧
      (∃ s, dictGet out "subject" = some (.jstr s)) ∧
      (∃ s, dictGet out "date" = some (.jstr s)) ∧
      (∃ s, dictGet out "snippet" = some (.jstr s)) ∧
      ((c6msgOk.payload.getD emptyPart).headers = [] →
        dictGet out "from" = some (.jstr "") ∧
        dictGet out "to" = some (.jstr "") ∧
        dictGet out "cc" = some (.jstr "") ∧
        dictGet out "subject" = some (.jstr "") ∧
        dictGet out "date" = some (.jstr "")) ∧
      (c6msgOk.labelIds = none → dictGet out "labelIds" = some (.jlist [])) ∧
      (c6msgOk.snippet = none → dictGet out "snippet" = some (.jstr "")) :=
  format_message_defaults c6msgOk ⟨"", ""⟩ rfl

/-!
C10. Absent `id` / `threadId` become null, unlike every other field.
-/

/-- C10: when the `id` (resp. `threadId`) key is absent the output
value is `None` — not an empty string — while `labelIds` and `snippet`
default to the empty list and empty string. -/
theorem format_message_id_null_passthrough (msg : RawMessage)
    (out : List (String × JVal)) (h : format_message msg = some out) :
    (msg.id = none → dictGet out "id" = some JVal.null ∧
       dictGet out "id" ≠ some (.jstr "")) ∧
    (msg.threadId = none → dictGet out "threadId" = some JVal.null ∧
       dictGet out "threadId" ≠ some (.jstr "")) ∧
    (msg.labelIds = none → dictGet out "labelIds" = some (.jlist [])) ∧
    (msg.snippet = none → dictGet out "snippet" = some (.jstr "")) := by
  rw [format_message_eq] at h
  split at h
  · exact absurd h (by simp)
  · rename_i body hB
    obtain rfl := Option.some.inj h
    refine ⟨fun hid => ⟨?_, ?_⟩, fun ht => ⟨?_, ?_⟩, fun hl => ?_, fun hsn => ?_⟩
    · simp [mkOutput, dictGet, optStr, hid]
    · simp [mkOutput, dictGet, optStr, hid]
    · simp [mkOutput, dictGet, optStr, ht]
    · simp [mkOutput, dictGet, optStr, ht]
    · simp [mkOutput, dictGet, hl]
    · simp [mkOutput, dictGet, hsn]

/-- A message with only the payload present. -/
def c10msg : RawMessage :=
  { id := none, threadId := none, labelIds := none, snippet := none,
    payload := some (.mk (some "text/plain") [] none []) }

/-- C10 witness: the theorem applied to a concrete message with absent
id and threadId. -/
theorem format_message_id_null_passthrough_witness :
    dictGet (mkOutput c10msg [] ⟨"", ""⟩) "id" = some JVal.null ∧
    dictGet (mkOutput c10msg [] ⟨"", ""⟩) "labelIds" = some (.jlist []) := by
  have h := format_message_id_null_passthrough c10msg (mkOutput c10msg [] ⟨"", ""⟩) rfl
  exact ⟨(h.1 rfl).1, h.2.2.1 rfl⟩

/-!
C7. Thread formatting applies `format_message` to every message in the
existing input order.
-/

theorem formatAll_spec (ms : List RawMessage) (outs : List (List (String × JVal)))
    (h : formatAll ms = some outs) :
    outs.length = ms.length ∧
    ∀ (i : Nat) (hi : i < ms.length) (hi' : i < outs.length),
      format_message (ms.get ⟨i, hi⟩) = some (outs.get ⟨i, hi'⟩) := by
  induction ms generalizing outs with
  | nil =>
    rw [formatAll] at h
    obtain rfl := Option.some.inj h
    exact ⟨rfl, fun i hi => absurd hi (by simp)⟩
  | cons m ms ih =>
    rw [formatAll] at h
    split at h
    · exact absurd h (by simp)
    · rename_i o ho
      cases hrec : formatAll ms with
      | none => rw [hrec] at h; exact absurd h (by simp)
      | some outs' =>
        rw [hrec] at h
        simp only [Option.map_some'] at h
        obtain rfl := Option.some.inj h
        obtain ⟨hlen, hidx⟩ := ih outs' hrec
        refine ⟨by simp [hlen], ?_⟩
        intro i hi hi'
        cases i with
        | zero => simpa using ho
        | succ j =>
          simp only [List.get_cons_succ]
          exact hidx j (by simpa using hi) (by simpa using hi')

/-- C7: when every message of the thread formats successfully, the
output `messages` sequence is exactly `format_message` applied to each
input message, index by index in the existing input order (in
particular of the same length — nothing is dropped, added or
re-sorted); an empty message list is handled without error. -/
theorem gmail_get_thread_order_preserved {α : Type} (t : RawThread α)
    (msgs : List RawMessage) (outs : List (List (String × JVal)))
    (hm : t.messages = some msgs) (hf : formatAll msgs = some outs) :
    gmail_get_thread_format t = some ⟨t.rest, some outs⟩ ∧
    outs.length = msgs.length ∧
    (∀ (i : Nat) (hi : i < msgs.length) (hi' : i < outs.length),
       format_message (msgs.get ⟨i, hi⟩) = some (outs.get ⟨i, hi'⟩)) := by
  obtain ⟨hlen, hidx⟩ := formatAll_spec msgs outs hf
  refine ⟨?_, hlen, hidx⟩
  simp [gmail_get_thread_format, hm, hf]

/-- First thread message of the order-preservation example. -/
def threadMsgA : RawMessage :=
  { id := some "m3", threadId := none, labelIds := none, snippet := none, payload := none }

/-- Second thread message of the order-preservation example. -/
def threadMsgB : RawMessage :=
  { id := some "m1", threadId := none, labelIds := none, snippet := none, payload := none }

/-- A two-message thread, out of id order, with an opaque extra field. -/
def threadEx : RawThread Nat := { rest := 5, messages := some [threadMsgA, threadMsgB] }

/-- The formatted messages of `threadEx`, in input order. -/
def threadOutsEx : List (List (String × JVal)) :=
  [[("id", .jstr "m3"), ("threadId", .null), ("labelIds", .jlist []),
    ("snippet", .jstr ""), ("from", .jstr ""), ("to", .jstr ""),
    ("cc", .jstr ""), ("subject", .jstr ""), ("date", .jstr ""),
    ("body_plain", .jstr ""), ("body_html", .jstr "")],
   [("id", .jstr "m1"), ("threadId", .null), ("labelIds", .jlist []),
    ("snippet", .jstr ""), ("from", .jstr ""), ("to", .jstr ""),
    ("cc", .jstr ""), ("subject", .jstr ""), ("date", .jstr ""),
    ("body_plain", .jstr ""), ("body_html", .jstr "")]]

/-- C7 witness: the theorem applied to the concrete two-message thread,
with the indexed property instantiated at both positions. -/
theorem gmail_get_thread_order_preserved_witness :
    gmail_get_thread_format threadEx = some ⟨5, some threadOutsEx⟩ ∧
    threadOutsEx.length = 2 ∧
    format_message ([threadMsgA, threadMsgB].get ⟨0, by decide⟩) =
      some (threadOutsEx.get ⟨0, by decide⟩) ∧
    format_message ([threadMsgA, threadMsgB].get ⟨1, by decide⟩) =
      some (threadOutsEx.get ⟨1, by decide⟩) := by
  obtain ⟨h1, h2, h3⟩ :=
    gmail_get_thread_order_preserved threadEx [threadMsgA, threadMsgB] threadOutsEx rfl rfl
  exact ⟨h1, h2, h3 0 (by decide) (by decide), h3 1 (by decide) (by decide)⟩

/-!
C8. The walker terminates, visits each node of the part tree exactly
once, and recurses into every child regardless of the node's own type.
-/

/-- C8: the walker (a total function, hence terminating) is one
`processOwn` step per entry of the pre-order visit list, whose length is
exactly the node count of the tree — every node is visited exactly
once; and the visit list of any node unconditionally continues into all
its children, whatever the node's own declared type. -/
theorem extract_email_body_visits_each_node_once :
    (∀ payload : Part,
       extract_email_body payload =
         foldOwn { plain := "", html := "" } (visitList payload)) ∧
    (∀ p : Part, (visitList p).length = sizeP p) ∧
    (∀ (m : Option String) (hs : List Header) (b : Option String) (ps : List Part),
       visitList (Part.mk m hs b ps) = Part.mk m hs b ps :: visitListAll ps) := by
  refine ⟨fun payload => ?_, visitList_length, fun m hs b ps => ?_⟩
  · rw [extract_email_body, process_part_eq_foldOwn]
  · rw [visitList]

/-!
C9. Thread fields other than `messages` pass through unchanged.
-/

/-- C9: every top-level field of the thread other than `messages`
reaches the output unchanged, and when the `messages` key is absent the
thread is returned as is, without error. -/
theorem gmail_get_thread_passthrough {α : Type} (t : RawThread α) :
    (∀ out : FormattedThread α,
       gmail_get_thread_format t = some out → out.rest = t.rest) ∧
    (t.messages = none → gmail_get_thread_format t = some ⟨t.rest, none⟩) := by
  constructor
  · intro out h
    simp only [gmail_get_thread_format] at h
    split at h
    · obtain rfl := Option.some.inj h
      rfl
    · rename_i msgs hm
      cases hf : formatAll msgs with
      | none => rw [hf] at h; exact absurd h (by simp)
      | some outs =>
        rw [hf] at h
        simp only [Option.map_some'] at h
        obtain rfl := Option.some.inj h
        rfl
  · intro hm
    simp [gmail_get_thread_format, hm]

/-- C9 witness: a thread with no `messages` key and an opaque field
passes through unchanged. -/
theorem gmail_get_thread_passthrough_witness :
    gmail_get_thread_format (RawThread.mk (7 : Nat) none) =
      some (FormattedThread.mk 7 none) ∧
    (FormattedThread.mk (7 : Nat) none).rest = (RawThread.mk (7 : Nat) none).rest := by
  have h := gmail_get_thread_passthrough (RawThread.mk (7 : Nat) none)
  exact ⟨h.2 rfl, h.1 (FormattedThread.mk 7 none) (h.2 rfl)⟩

end GmailMCP
